import Mathlib

/-!
Shallow embedding of `src/litstudy/network.py` (the litstudy network module)
and proofs about its graph-construction functions.

Python values are modelled as follows: document and reference ids are `Nat`,
author names are `String` (`Option String` when the attribute may be missing),
Python `None` is `none`, Python lists are `List`, Python dicts
(`collections.defaultdict(int)` and the `DocumentMapping`) are association
lists in insertion order, and numeric color values are `ℚ`.  Fallible code
(`assert`, `ZeroDivisionError`) is modelled with `Except String`.

`DocumentMapping` and `DocumentSet` live in `litstudy/types.py`, which is not
part of the sources; their `add`/`get`/iteration behaviour is modelled from
the spec (see the doc comments on `olookup` and `Document`).
-/

/-- Modelled from the spec: a `Document` record of the `DocumentSet`
(`litstudy/types.py`, not under the sources; spec section 3).  A document has
an external identifier, a title, an optional ordered list of reference
identifiers (the attribute may be absent, i.e. `none`), and an optional list
of authors whose names may be missing (`none`) or empty (`""`).  Node
attribute columns are not modelled: no claim depends on them. -/
structure Document where
  id : Nat
  title : String
  references : Option (List Nat)
  authors : Option (List (Option String))
deriving DecidableEq, Repr

/-- Modelled from the spec: `DocumentMapping.get` (`litstudy/types.py`, not
under the sources; spec section 4.1: `get(external_id) -> node_index |
absent`).  The mapping is an association list in insertion order;
`DocumentMapping.add` is modelled as appending a pair, which the code only
performs on keys that are absent at that moment, so the unspecified
duplicate-add behaviour is never exercised. -/
def olookup : List (Nat × Nat) → Nat → Option Nat
  | [], _ => none
  | (k, v) :: rest, q => if q = k then some v else olookup rest q

/-- Reading a `collections.defaultdict(int)`: the stored value, or `0` for an
absent key. -/
def alookup {K : Type} [DecidableEq K] : List (K × Nat) → K → Nat
  | [], _ => 0
  | (k, v) :: rest, q => if q = k then v else alookup rest q

/-- One `d[k] += 1` on a `defaultdict(int)` held as an association list in
insertion order: an existing key is updated in place, a fresh key is appended
with value `1`. -/
def bump {K : Type} [DecidableEq K] : List (K × Nat) → K → List (K × Nat)
  | [], q => [(q, 1)]
  | (k, v) :: rest, q =>
      if q = k then (k, v + 1) :: rest else (k, v) :: bump rest q

/-- A sequence of `d[k] += 1` updates, one per element of `ks`. -/
def bumpList {K : Type} [DecidableEq K] (m : List (K × Nat)) (ks : List K) :
    List (K × Nat) :=
  ks.foldl bump m

/-- The identity mapping built by `build_base_network` (lines 155-162):
`mapping.add(doc.id, i)` for each document, i.e. external document id to
position in the document set. -/
def baseMapping (docs : List Document) : List (Nat × Nat) :=
  docs.enum.map (fun p => (p.2.id, p.1))

/-- A color value passed to `build_base_network`: a Python `float` (modelled
as `ℚ`) or a categorical value (modelled as `String`).  The code dispatches on
`all(isinstance(c, float) for c in colors)` (line 174). -/
inductive ColorVal where
  | num (q : ℚ)
  | cat (s : String)
deriving DecidableEq, Repr

/-- Models `isinstance(c, float)`. -/
def ColorVal.isNum : ColorVal → Bool
  | num _ => true
  | cat _ => false

/-- The numeric value of a color (only used on the all-numeric branch). -/
def ColorVal.numVal : ColorVal → ℚ
  | num q => q
  | cat _ => 0

/-- The sort key used for `sorted(set(colors))` on the categorical branch.
Only the all-categorical case is faithful to Python (a mixed-type sequence
would raise a `TypeError` inside `sorted`; no claim exercises that case). -/
def ColorVal.catKey : ColorVal → String
  | num q => toString q
  | cat s => s

/-- The color-handling path of `build_base_network` (lines 165-186).
`ndocs` stands for `len(docs)`.  The guard `if colors is not None and docs:`
(line 165) skips everything when the document set is empty; otherwise the
explicit sequence is materialised and `assert len(colors) == len(docs)`
(line 172) is checked (failure modelled as `Except.error "AssertionError"`).
If every value is a float, min-max normalisation divides by `end - begin`
(line 177) with no guard, so an all-equal sequence raises (modelled as
`Except.error "ZeroDivisionError"`); otherwise each distinct value gets the
index of its position in the ascending sort of the distinct values
(lines 180-182).  The column-name form (`isinstance(colors, str)`, line 167)
is not modelled: every claim concerns explicit per-document sequences. -/
def computeColors (ndocs : Nat) (colors : Option (List ColorVal)) :
    Except String (Option (List (ℚ ⊕ Nat))) :=
  match colors with
  | none => Except.ok none
  | some cs =>
    if ndocs = 0 then Except.ok none
    else if cs.length ≠ ndocs then Except.error "AssertionError"
    else if cs.all ColorVal.isNum then
      match cs.map ColorVal.numVal with
      | [] => Except.ok none
      | q0 :: qrest =>
        let b := qrest.foldl min q0
        let e := qrest.foldl max q0
        if e - b = 0 then Except.error "ZeroDivisionError"
        else
          Except.ok (some ((q0 :: qrest).map (fun c => Sum.inl ((c - b) / (e - b)))))
    else
      let grouped := ((cs.map ColorVal.catKey).dedup).insertionSort (· ≤ ·)
      Except.ok (some (cs.map (fun c => Sum.inr (grouped.indexOf c.catKey))))

/-- Descending order on aggregated edges by weight: the comparison behind
`edges.sort(key=lambda p: p[1], reverse=True)` (lines 260 and 327). -/
def wDesc (a b : (Nat × Nat) × Nat) : Prop := b.2 ≤ a.2

instance : DecidableRel wDesc := fun a b => inferInstanceAs (Decidable (b.2 ≤ a.2))

instance : IsTotal ((Nat × Nat) × Nat) wDesc := ⟨fun a b => le_total b.2 a.2⟩

instance : IsTrans ((Nat × Nat) × Nat) wDesc := ⟨fun _ _ _ h1 h2 => le_trans h2 h1⟩

/-- The shared edge-pruning step (lines 257-261 and 324-328): if the
aggregated edge list exceeds `maxEdges`, sort by weight descending and keep
the first `maxEdges` entries, otherwise return the list unchanged.  The model
uses a sorted permutation just as Python's stable sort does; no proved
property depends on the order among equal weights. -/
def pruneEdges (maxEdges : Nat) (edges : List ((Nat × Nat) × Nat)) :
    List ((Nat × Nat) × Nat) :=
  if maxEdges < edges.length then (edges.insertionSort wDesc).take maxEdges
  else edges

/-- The citation graph: a directed edge set over document indices. -/
structure CitationGraph where
  directed : Bool
  edges : List (Nat × Nat)
deriving DecidableEq, Repr

/-- The edge list built by `build_citation_network` (lines 210-215): for each
document `i` and each of its reference ids, an edge `(i, j)` whenever the
identity mapping resolves the id to a node `j`; unresolved ids contribute
nothing. -/
def citationEdges (docs : List Document) : List (Nat × Nat) :=
  docs.enum.flatMap (fun p =>
    (p.2.references.getD []).filterMap (fun r =>
      (olookup (baseMapping docs) r).map (fun j => (p.1, j))))

/-- `build_citation_network` (lines 204-217): `build_base_network(docs, True)`
creates a `networkx.DiGraph`, then the reference edges are added with no
weight attribute. -/
def buildCitationNetwork (docs : List Document) : CitationGraph :=
  { directed := true, edges := citationEdges docs }

/-- Resolving one document's reference list against a mapping, keeping only
ids that resolve (lines 244-250, also 211-214). -/
def resolveRefs (m : List (Nat × Nat)) (d : Document) : List Nat :=
  (d.references.getD []).filterMap (olookup m)

/-- The inner double loop of `build_cocitation_network` (lines 252-255):
`for i in refs: for j in refs: if i < j:` — all ordered pairs of positions
whose values are strictly increasing. -/
def cocitPairs (refs : List Nat) : List (Nat × Nat) :=
  (List.product refs refs).filter (fun p => decide (p.1 < p.2))

/-- The `strength` defaultdict of `build_cocitation_network` after the full
aggregation loop (lines 241-255). -/
def cocitStrengthMap (docs : List Document) : List ((Nat × Nat) × Nat) :=
  docs.foldl (fun m d => bumpList m (cocitPairs (resolveRefs (baseMapping docs) d))) []

/-- `max_edges = max_edges or len(docs) * 2` (line 238): Python's `or`
replaces both `None` and `0` (falsy) by the default `len(docs) * 2`. -/
def cocitEffectiveMaxEdges (docs : List Document) (maxEdges : Option Nat) : Nat :=
  match maxEdges with
  | none => docs.length * 2
  | some k => if k = 0 then docs.length * 2 else k

/-- An undirected weighted graph as built by `build_cocitation_network`:
aggregated edges keyed by `(smaller index, larger index)` with their
weights. -/
structure CocitGraph where
  directed : Bool
  nodes : Nat
  edges : List ((Nat × Nat) × Nat)
deriving DecidableEq, Repr

/-- `build_cocitation_network` (lines 228-266): base graph (undirected, one
node per document), strength aggregation, pruning, then
`g.add_edge(i, j, weight=weight)` per surviving entry. -/
def buildCocitationNetwork (docs : List Document) (maxEdges : Option Nat) :
    CocitGraph :=
  { directed := false,
    nodes := docs.length,
    edges := pruneEdges (cocitEffectiveMaxEdges docs maxEdges) (cocitStrengthMap docs) }

/-- The per-document resolution loop of `build_coupling_network`
(lines 299-311), including the slip at line 308: on a fresh reference id the
code runs `mapping.add(ref, n); n += 1; i = n`, so the id is recorded in the
mapping at the old `n` but appended to this document's reference set as
`n + 1`.  Returns the updated mapping, the updated counter, and the resolved
index list of this document. -/
def couplingResolveRefs : List (Nat × Nat) → Nat → List Nat →
    List (Nat × Nat) × Nat × List Nat
  | m, n, [] => (m, n, [])
  | m, n, r :: rs =>
    match olookup m r with
    | some i =>
      let res := couplingResolveRefs m n rs
      (res.1, res.2.1, i :: res.2.2)
    | none =>
      let res := couplingResolveRefs (m ++ [(r, n)]) (n + 1) rs
      (res.1, res.2.1, (n + 1) :: res.2.2)

/-- The outer loop of lines 297-313: thread the mapping and counter through
all documents, collecting each document's resolved reference list
(`doc_refs`). -/
def couplingCollectRefs : List (Nat × Nat) → Nat → List Document → List (List Nat)
  | _, _, [] => []
  | m, n, d :: ds =>
    let res := couplingResolveRefs m n (d.references.getD [])
    res.2.2 :: couplingCollectRefs res.1 res.2.1 ds

/-- `len(a & b)` on Python sets represented as lists: the number of distinct
elements common to both. -/
def interSize (a b : List Nat) : Nat :=
  ((a.dedup).filter (fun x => decide (x ∈ b))).length

/-- The strength map of `build_coupling_network` (lines 315-322): for each
pair `i > j` of document positions, the size of the intersection of their
resolved reference sets, recorded only when nonzero. -/
def couplingStrength (drefs : List (List Nat)) : List ((Nat × Nat) × Nat) :=
  drefs.enum.flatMap (fun p =>
    ((drefs.take p.1).enum).filterMap (fun q =>
      if interSize p.2 q.2 ≠ 0 then some ((p.1, q.1), interSize p.2 q.2) else none))

/-- The coupling graph: each aggregated edge carries the same value twice,
once as `weight` and once as `score` (line 331). -/
structure CouplingGraph where
  directed : Bool
  nodes : Nat
  edges : List ((Nat × Nat) × Nat × Nat)
deriving DecidableEq, Repr

/-- `build_coupling_network` (lines 283-333): base graph and mapping, the
resolution loop with on-the-fly registration of unknown reference ids, pairwise
intersection strengths, pruning (`max_edges` defaults to 1000), then
`g.add_edge(i, j, weight=weight, score=weight)`. -/
def buildCouplingNetwork (docs : List Document) (maxEdges : Nat) : CouplingGraph :=
  let drefs := couplingCollectRefs (baseMapping docs) docs.length docs
  { directed := false,
    nodes := docs.length,
    edges := (pruneEdges maxEdges (couplingStrength drefs)).map (fun e => (e.1, e.2, e.2)) }

/-- The filtered author-name list of one document: `[a.name for a in
doc.authors or [] if a.name]` (line 383; the same truthiness test `if name:`
guards the counting loop at lines 363-367), so missing (`none`) and empty
(`""`) names are dropped. -/
def authorNames (d : Document) : List String :=
  (d.authors.getD []).filterMap (fun a =>
    a.bind (fun n => if n = "" then none else some n))

/-- The `count` defaultdict of `build_coauthor_network` (lines 358-367): per
author name, the number of occurrences over all documents; keys in first-sight
order. -/
def authorCountMap (docs : List Document) : List (String × Nat) :=
  docs.foldl (fun m d => bumpList m (authorNames d)) []

/-- `authors = list(count.keys())` (line 369). -/
def allAuthors (docs : List Document) : List String :=
  (authorCountMap docs).map Prod.fst

/-- Descending order on author names by occurrence count: the comparison
behind `authors.sort(key=lambda name: count[name], reverse=True)`
(line 372). -/
def aDesc (cnt : List (String × Nat)) (a b : String) : Prop :=
  alookup cnt b ≤ alookup cnt a

instance (cnt : List (String × Nat)) : DecidableRel (aDesc cnt) :=
  fun a b => inferInstanceAs (Decidable (alookup cnt b ≤ alookup cnt a))

instance (cnt : List (String × Nat)) : IsTotal String (aDesc cnt) :=
  ⟨fun a b => le_total (alookup cnt b) (alookup cnt a)⟩

instance (cnt : List (String × Nat)) : IsTrans String (aDesc cnt) :=
  ⟨fun _ _ _ h1 h2 => le_trans h2 h1⟩

/-- The retained author list (lines 369-373): all names in first-sight order,
cut to the `max_authors` most frequent ones (sorted by count, descending) when
the bound is set and exceeded. -/
def retainedAuthors (docs : List Document) (maxA : Option Nat) : List String :=
  let authors := allAuthors docs
  match maxA with
  | none => authors
  | some k =>
    if k < authors.length then (authors.insertionSort (aDesc (authorCountMap docs))).take k
    else authors

/-- `mapping[author] = i for i, author in enumerate(authors)` (lines 375-378):
the node index of a retained author name. -/
def authorIdx (docs : List Document) (maxA : Option Nat) (name : String) : Nat :=
  (retainedAuthors docs maxA).indexOf name

/-- The nested loop `for i, left in enumerate(authors): for right in
authors[:i]:` (lines 385-386), with the already-seen prefix threaded through
explicitly: every ordered pair (later element, earlier element) of one
document's author list. -/
def docPairsAux : List String → List String → List (String × String)
  | _, [] => []
  | pre, x :: xs => pre.map (fun r => (x, r)) ++ docPairsAux (pre ++ [x]) xs

/-- All (later, earlier) author pairs of one document's filtered author
list. -/
def docPairs (names : List String) : List (String × String) :=
  docPairsAux [] names

/-- The edge keys one document contributes (lines 385-388): a pair is kept
only when both names are retained (`if left in mapping and right in mapping`)
and is keyed `(mapping[left], mapping[right])`, i.e. (later index, earlier
index) in that document's order. -/
def coauthorEdgeKeys (ret : List String) (names : List String) : List (Nat × Nat) :=
  (docPairs names).filterMap (fun p =>
    if p.1 ∈ ret ∧ p.2 ∈ ret then some (ret.indexOf p.1, ret.indexOf p.2) else none)

/-- The `edges` defaultdict of `build_coauthor_network` after the loop at
lines 380-388. -/
def coauthorEdgeMap (docs : List Document) (maxA : Option Nat) :
    List ((Nat × Nat) × Nat) :=
  docs.foldl (fun m d => bumpList m (coauthorEdgeKeys (retainedAuthors docs maxA) (authorNames d))) []

/-- `networkx` node creation: a node is appended only if not yet present. -/
def addNode (ns : List Nat) (v : Nat) : List Nat :=
  if v ∈ ns then ns else ns ++ [v]

/-- `networkx` node creation by `add_edge` (line 391): an edge endpoint that
is not yet a node is appended to the node list. -/
def addEdgeNodes (nodes : List Nat) (keys : List (Nat × Nat)) : List Nat :=
  keys.foldl (fun ns k => addNode (addNode ns k.1) k.2) nodes

/-- The co-author graph: a `networkx.DiGraph` (line 357) whose nodes are the
indices of the retained authors plus any nodes implicitly created by
`add_edge`, with the aggregated weighted edges. -/
structure CoauthorGraph where
  directed : Bool
  nodes : List Nat
  edges : List ((Nat × Nat) × Nat)
deriving DecidableEq, Repr

/-- `build_coauthor_network` (lines 350-393). -/
def buildCoauthorNetwork (docs : List Document) (maxA : Option Nat) : CoauthorGraph :=
  let em := coauthorEdgeMap docs maxA
  { directed := true,
    nodes := addEdgeNodes (List.range (retainedAuthors docs maxA).length) (em.map Prod.fst),
    edges := em }

/-- A graph as seen by `plot_network`: a node list and an edge list. -/
structure PyGraph where
  nodes : List Nat
  edges : List (Nat × Nat)
deriving DecidableEq, Repr

/-- `list(nx.isolates(g))` (line 45): the nodes incident to no edge. -/
def isolatedNodes (g : PyGraph) : List Nat :=
  g.nodes.filter (fun v => g.edges.all (fun e => decide (e.1 ≠ v) && decide (e.2 ≠ v)))

/-- `g.remove_nodes_from(vs)` (line 47): drop the nodes and any incident
edges. -/
def removeNodesFrom (g : PyGraph) (vs : List Nat) : PyGraph :=
  { nodes := g.nodes.filter (fun v => decide (v ∉ vs)),
    edges := g.edges.filter (fun e => decide (e.1 ∉ vs) && decide (e.2 ∉ vs)) }

/-- The isolate-removal prologue of `plot_network` (lines 45-47), with Python
object identity made explicit as a store of graph objects addressed by index:
`g = g.copy()` allocates a fresh object (appended to the store) and
`remove_nodes_from` then mutates only that fresh object.  Returns the updated
store and the index of the graph the rest of the function works on. -/
def plotNetworkIsolateStep (store : List PyGraph) (ref : Nat) :
    List PyGraph × Nat :=
  match store.get? ref with
  | none => (store, ref)
  | some g =>
    if (isolatedNodes g).isEmpty then (store, ref)
    else (store ++ [removeNodesFrom g (isolatedNodes g)], store.length)

/-- Follows the spec's words (sections 4.5 and 8): the size of the
intersection of two documents' reference-id sets, `|references(i) ∩
references(j)|`. -/
def specSharedRefCount (d1 d2 : Document) : Nat :=
  ((d1.references.getD []).dedup.filter (fun r => decide (r ∈ d2.references.getD []))).length

/-- Follows the spec's words (sections 4.4 and 8): the number of documents
whose reference list contains both given document ids. -/
def specCocitationCount (docs : List Document) (id1 id2 : Nat) : Nat :=
  (docs.filter (fun d =>
    decide (id1 ∈ d.references.getD []) && decide (id2 ∈ d.references.getD []))).length

/-- Follows the spec's words (sections 4.6 and 8): the number of documents on
which both given authors appear (with missing/empty names already
excluded). -/
def specCoauthorCount (docs : List Document) (a b : String) : Nat :=
  (docs.filter (fun d => decide (a ∈ authorNames d) && decide (b ∈ authorNames d))).length

/-! ## Association-list infrastructure lemmas -/

theorem alookup_bump {K : Type} [DecidableEq K] (m : List (K × Nat)) (k q : K) :
    alookup (bump m k) q = alookup m q + (if q = k then 1 else 0) := by
  induction m with
  | nil =>
    by_cases h : q = k <;> simp [bump, alookup, h]
  | cons p rest ih =>
    obtain ⟨a, v⟩ := p
    by_cases h1 : k = a
    · subst h1
      by_cases h2 : q = k <;> simp [bump, alookup, h2]
    · by_cases h2 : q = a
      · subst h2
        have hqk : ¬ q = k := fun hh => h1 hh.symm
        simp [bump, alookup, h1, hqk]
      · simp [bump, alookup, h1, h2, ih]

theorem alookup_bumpList {K : Type} [DecidableEq K] (ks : List K) (m : List (K × Nat)) (q : K) :
    alookup (bumpList m ks) q = alookup m q + ks.countP (fun x => decide (x = q)) := by
  induction ks generalizing m with
  | nil => simp [bumpList]
  | cons x ks ih =>
    have h0 : bumpList m (x :: ks) = bumpList (bump m x) ks := rfl
    rw [h0, ih, alookup_bump, List.countP_cons]
    by_cases h : q = x
    · rw [if_pos h]
      have hd : decide (x = q) = true := by simp [h]
      rw [hd, if_pos rfl]
      omega
    · have hx : ¬ x = q := fun hh => h hh.symm
      have hd : decide (x = q) = false := by simp [hx]
      rw [if_neg h, hd]
      simp

theorem alookup_foldl_bumpList {K α : Type} [DecidableEq K] (f : α → List K)
    (l : List α) (m : List (K × Nat)) (q : K) :
    alookup (l.foldl (fun acc d => bumpList acc (f d)) m) q
      = alookup m q + (l.flatMap f).countP (fun x => decide (x = q)) := by
  induction l generalizing m with
  | nil => simp
  | cons x l ih =>
    simp only [List.foldl_cons, List.flatMap_cons, List.countP_append]
    rw [ih, alookup_bumpList]
    omega

theorem countP_eq_count {α : Type} [DecidableEq α] [BEq α] [LawfulBEq α]
    (l : List α) (q : α) :
    l.countP (fun x => decide (x = q)) = l.count q := by
  show _ = l.countP (fun x => x == q)
  apply List.countP_congr
  intro x _
  simp [beq_iff_eq]

theorem keys_bump_eq {K : Type} [DecidableEq K] (m : List (K × Nat)) (k : K) :
    (bump m k).map Prod.fst =
      if k ∈ m.map Prod.fst then m.map Prod.fst else m.map Prod.fst ++ [k] := by
  induction m with
  | nil => simp [bump]
  | cons p rest ih =>
    obtain ⟨a, v⟩ := p
    by_cases h1 : k = a
    · subst h1; simp [bump]
    · have h1' : ¬ a = k := fun hh => h1 hh.symm
      by_cases h2 : k ∈ rest.map Prod.fst <;>
        simp [bump, h1, h1', h2, ih]

theorem mem_keys_bumpList {K : Type} [DecidableEq K] (ks : List K) (m : List (K × Nat)) (q : K)
    (h : q ∈ (bumpList m ks).map Prod.fst) : q ∈ m.map Prod.fst ∨ q ∈ ks := by
  induction ks generalizing m with
  | nil => exact Or.inl h
  | cons x ks ih =>
    have h' : q ∈ (bumpList (bump m x) ks).map Prod.fst := h
    rcases ih (bump m x) h' with h2 | h2
    · rw [keys_bump_eq] at h2
      by_cases hx : x ∈ m.map Prod.fst
      · rw [if_pos hx] at h2; exact Or.inl h2
      · rw [if_neg hx] at h2
        rcases List.mem_append.mp h2 with h3 | h3
        · exact Or.inl h3
        · simp at h3; subst h3; exact Or.inr (List.mem_cons_self _ _)
    · exact Or.inr (List.mem_cons_of_mem _ h2)

theorem mem_keys_foldl_bumpList {K α : Type} [DecidableEq K] (f : α → List K)
    (l : List α) (m : List (K × Nat)) (q : K)
    (h : q ∈ (l.foldl (fun acc d => bumpList acc (f d)) m).map Prod.fst) :
    q ∈ m.map Prod.fst ∨ ∃ d ∈ l, q ∈ f d := by
  induction l generalizing m with
  | nil => exact Or.inl h
  | cons x l ih =>
    rcases ih (bumpList m (f x)) h with h2 | h2
    · rcases mem_keys_bumpList (f x) m q h2 with h3 | h3
      · exact Or.inl h3
      · exact Or.inr ⟨x, List.mem_cons_self _ _, h3⟩
    · obtain ⟨d, hd, hq⟩ := h2
      exact Or.inr ⟨d, List.mem_cons_of_mem _ hd, hq⟩

theorem nodup_keys_bump {K : Type} [DecidableEq K] (m : List (K × Nat)) (k : K)
    (h : (m.map Prod.fst).Nodup) : ((bump m k).map Prod.fst).Nodup := by
  rw [keys_bump_eq]
  by_cases hk : k ∈ m.map Prod.fst
  · rwa [if_pos hk]
  · rw [if_neg hk]
    simp only [List.nodup_append, List.nodup_cons, List.Disjoint]
    refine ⟨h, by simp, ?_⟩
    intro a ha hak
    simp only [List.mem_singleton] at hak
    subst hak
    exact hk ha

theorem nodup_keys_bumpList {K : Type} [DecidableEq K] (ks : List K) (m : List (K × Nat))
    (h : (m.map Prod.fst).Nodup) : ((bumpList m ks).map Prod.fst).Nodup := by
  induction ks generalizing m with
  | nil => exact h
  | cons x ks ih => exact ih (bump m x) (nodup_keys_bump m x h)

theorem nodup_keys_foldl_bumpList {K α : Type} [DecidableEq K] (f : α → List K)
    (l : List α) (m : List (K × Nat)) (h : (m.map Prod.fst).Nodup) :
    ((l.foldl (fun acc d => bumpList acc (f d)) m).map Prod.fst).Nodup := by
  induction l generalizing m with
  | nil => exact h
  | cons x l ih => exact ih (bumpList m (f x)) (nodup_keys_bumpList (f x) m h)

/-! ## Pruning lemmas -/

theorem pruneEdges_subset (maxE : Nat) (l : List ((Nat × Nat) × Nat)) :
    pruneEdges maxE l ⊆ l := by
  intro x hx
  unfold pruneEdges at hx
  split at hx
  · have h1 : x ∈ l.insertionSort wDesc := List.take_subset _ _ hx
    exact ((List.perm_insertionSort wDesc l).mem_iff).mp h1
  · exact hx

/-! ## Claim C4: edge pruning -/

/-- C4: for every aggregated weight map and every `max_edges` bound, the
pruning step used by both `build_cocitation_network` and
`build_coupling_network` returns at most `max_edges` edges, returns the list
unchanged when its size does not exceed `max_edges`, and every retained edge's
weight is at least the weight of every discarded edge.  Determinism given
identical input is immediate: the embedding is a pure function of its
arguments, mirroring Python's fixed stable sort. -/
theorem pruneEdges_spec (maxE : Nat) (l : List ((Nat × Nat) × Nat)) :
    (pruneEdges maxE l).length ≤ maxE ∧
    (l.length ≤ maxE → pruneEdges maxE l = l) ∧
    (∀ x ∈ pruneEdges maxE l, ∀ y ∈ l, y ∉ pruneEdges maxE l → y.2 ≤ x.2) := by
  by_cases h : maxE < l.length
  · refine ⟨?_, fun h2 => absurd h (not_lt.mpr h2), ?_⟩
    · rw [pruneEdges, if_pos h, List.length_take]
      exact min_le_left _ _
    · intro x hx y hy hny
      rw [pruneEdges, if_pos h] at hx hny
      have hsort : List.Sorted wDesc (l.insertionSort wDesc) :=
        List.sorted_insertionSort wDesc l
      have hy2 : y ∈ l.insertionSort wDesc :=
        ((List.perm_insertionSort wDesc l).mem_iff).mpr hy
      have hydrop : y ∈ (l.insertionSort wDesc).drop maxE := by
        rw [← List.take_append_drop maxE (l.insertionSort wDesc)] at hy2
        rcases List.mem_append.mp hy2 with h1 | h1
        · exact absurd h1 hny
        · exact h1
      exact hsort.rel_of_mem_take_of_mem_drop hx hydrop
  · have heq : pruneEdges maxE l = l := by rw [pruneEdges, if_neg h]
    refine ⟨?_, fun _ => heq, ?_⟩
    · rw [heq]; omega
    · intro x hx y hy hny
      rw [heq] at hny
      exact absurd hy hny

/-- Witness for C4: the theorem applied at a concrete pruning instance where
an edge is actually discarded. -/
theorem pruneEdges_spec_witness :
    ((1, 1), 3) ∈ pruneEdges 2 [((0, 0), 1), ((1, 1), 3), ((2, 2), 2)] ∧
    (((0, 0), 1) : (Nat × Nat) × Nat).2 ≤ (((1, 1), 3) : (Nat × Nat) × Nat).2 :=
  ⟨by decide,
   (pruneEdges_spec 2 [((0, 0), 1), ((1, 1), 3), ((2, 2), 2)]).2.2
     ((1, 1), 3) (by decide) ((0, 0), 1) (by decide) (by decide)⟩

/-! ## Claim C9: max_edges falsy default -/

/-- C9: passing `max_edges = 0` (or `None`) to `build_cocitation_network`
resolves, through Python's `or`, to the default bound `len(docs) * 2`, so the
graph built for `0` is the one built for the default, not an empty-edged
graph. -/
theorem cocitation_maxEdges_zero_uses_default (docs : List Document) :
    cocitEffectiveMaxEdges docs (some 0) = docs.length * 2 ∧
    cocitEffectiveMaxEdges docs none = docs.length * 2 ∧
    buildCocitationNetwork docs (some 0) = buildCocitationNetwork docs none := by
  refine ⟨rfl, rfl, ?_⟩
  simp [buildCocitationNetwork, cocitEffectiveMaxEdges]

/-! ## Claim C5: division by zero in color normalisation -/

/-- C5 (code bug): a single document with the all-equal numeric color
sequence `[1.0]` makes `build_base_network` evaluate
`(c - begin) / (end - begin)` with `end == begin`: the code has no guard and
raises `ZeroDivisionError` (modelled as the error value), contradicting the
claim that the normalisation is guarded. -/
theorem buildBase_equalNumericColors_divZero :
    computeColors 1 (some [ColorVal.num 1]) = Except.error "ZeroDivisionError" := by
  norm_num [computeColors, ColorVal.isNum, ColorVal.numVal]

/-! ## Claim C7: color length assert -/

/-- C7 counterexample: on an empty document set with a one-element explicit
color sequence the lengths differ, yet `build_base_network` succeeds, because
`if colors is not None and docs:` (line 165) skips the whole color block —
the `assert` is never reached, so the call does not fail fast. -/
theorem buildBase_emptyDocs_mismatch_not_checked :
    computeColors 0 (some [ColorVal.cat "x"]) = Except.ok none ∧
    [ColorVal.cat "x"].length ≠ ([] : List Document).length := by
  exact ⟨rfl, by decide⟩

/-- C7 (amended): for a nonempty document set, an explicit per-document color
sequence whose length differs from the document count makes
`build_base_network` fail fast at `assert len(colors) == len(docs)`. -/
theorem buildBase_colorLength_mismatch_fails (ndocs : Nat) (cs : List ColorVal)
    (h0 : ndocs ≠ 0) (hlen : cs.length ≠ ndocs) :
    computeColors ndocs (some cs) = Except.error "AssertionError" := by
  simp [computeColors, h0, hlen]

/-- Witness for the amended C7 at a concrete mismatched input. -/
theorem buildBase_colorLength_mismatch_fails_witness :
    computeColors 2 (some [ColorVal.num 1]) = Except.error "AssertionError" :=
  buildBase_colorLength_mismatch_fails 2 [ColorVal.num 1] (by decide) (by decide)

/-! ## Claim C10: plot_network does not mutate the caller's graph -/

/-- C10: when the input graph has isolated nodes, `plot_network` copies the
graph before removing the isolates: the caller's graph object is unchanged
(same node and edge sets), the function continues on a fresh object equal to
the original minus its isolates, and that fresh object is distinct from the
caller's. -/
theorem plotNetwork_isolateRemoval_preserves_caller (store : List PyGraph)
    (ref : Nat) (g : PyGraph) (href : store.get? ref = some g)
    (hiso : isolatedNodes g ≠ []) :
    ((plotNetworkIsolateStep store ref).1).get? ref = some g ∧
    ((plotNetworkIsolateStep store ref).1).get? (plotNetworkIsolateStep store ref).2
      = some (removeNodesFrom g (isolatedNodes g)) ∧
    (plotNetworkIsolateStep store ref).2 ≠ ref := by
  have hlt : ref < store.length := by
    by_contra hge
    push_neg at hge
    rw [List.get?_eq_none.mpr hge] at href
    exact Option.noConfusion href
  have hstep : plotNetworkIsolateStep store ref
      = (store ++ [removeNodesFrom g (isolatedNodes g)], store.length) := by
    unfold plotNetworkIsolateStep
    rw [href]
    simp [hiso]
  rw [hstep]
  refine ⟨?_, ?_, ?_⟩
  · show (store ++ [removeNodesFrom g (isolatedNodes g)]).get? ref = some g
    rw [List.get?_append hlt]
    exact href
  · show (store ++ [removeNodesFrom g (isolatedNodes g)]).get? store.length
        = some (removeNodesFrom g (isolatedNodes g))
    exact List.get?_concat_length store _
  · show store.length ≠ ref
    omega

/-- Witness for C10: a two-node graph with one isolate. -/
theorem plotNetwork_isolateRemoval_witness :
    ((plotNetworkIsolateStep [⟨[0, 1], [(0, 0)]⟩] 0).1).get? 0
      = some ⟨[0, 1], [(0, 0)]⟩ :=
  (plotNetwork_isolateRemoval_preserves_caller [⟨[0, 1], [(0, 0)]⟩] 0
    ⟨[0, 1], [(0, 0)]⟩ (by decide) (by decide)).1

/-! ## Claim C1: bibliographic coupling weights -/

/-- C1 (code bug): two documents that share the out-of-set reference id `100`.
Because line 308 runs `i = n` after `n += 1`, the first document's reference
set records the fresh id as index `3` while the mapping records it as `2`, the
index the second document then resolves to; the sets are disjoint and the
coupling graph has no edge at all, while the spec-level shared-reference count
(and the function's own docstring) give weight `1`. -/
theorem coupling_sharedFreshRef_producesNoEdge :
    (buildCouplingNetwork
        [⟨0, "a", some [100], none⟩, ⟨1, "b", some [100], none⟩] 1000).edges = [] ∧
    specSharedRefCount ⟨0, "a", some [100], none⟩ ⟨1, "b", some [100], none⟩ = 1 := by
  constructor <;> decide

/-! ## Claim C3: citation network -/

/-- C3: the graph returned by `build_citation_network` is directed, and it
contains the edge `(i, j)` exactly when document `i` exists and its reference
list holds an id that the identity mapping resolves to node `j`.  Reference
ids that do not resolve contribute no edge and raise no error (the model is a
total function), and edges are bare pairs: no weight attribute is ever
attached. -/
theorem citation_edge_iff (docs : List Document) (i j : Nat) :
    (buildCitationNetwork docs).directed = true ∧
    ((i, j) ∈ (buildCitationNetwork docs).edges ↔
      ∃ d, docs.get? i = some d ∧
        ∃ r ∈ d.references.getD [], olookup (baseMapping docs) r = some j) := by
  refine ⟨rfl, ?_⟩
  show (i, j) ∈ citationEdges docs ↔ _
  unfold citationEdges
  rw [List.mem_flatMap]
  constructor
  · rintro ⟨⟨a, d⟩, hp, hin⟩
    rw [List.mem_filterMap] at hin
    obtain ⟨r, hr, hmap⟩ := hin
    rw [Option.map_eq_some'] at hmap
    obtain ⟨j2, hj2, heq⟩ := hmap
    have h1 : a = i := congrArg Prod.fst heq
    have h2 : j2 = j := congrArg Prod.snd heq
    refine ⟨d, ?_, r, hr, ?_⟩
    · rw [← h1]
      exact List.mem_enum_iff_get?.mp hp
    · rw [← h2]
      exact hj2
  · rintro ⟨d, hd, r, hr, hres⟩
    refine ⟨(i, d), List.mem_enum_iff_get?.mpr hd, ?_⟩
    rw [List.mem_filterMap]
    refine ⟨r, hr, ?_⟩
    rw [hres]
    rfl

/-! ## Co-citation infrastructure -/

theorem keys_baseMapping (docs : List Document) :
    (baseMapping docs).map Prod.fst = docs.map Document.id := by
  unfold baseMapping
  rw [List.map_map]
  have h : (Prod.fst ∘ fun p : Nat × Document => (p.2.id, p.1))
      = (Document.id ∘ Prod.snd) := rfl
  rw [h, ← List.map_map, List.enum_map_snd]

theorem mem_baseMapping_iff (docs : List Document) (r v : Nat) :
    (r, v) ∈ baseMapping docs ↔ ∃ d, docs.get? v = some d ∧ d.id = r := by
  unfold baseMapping
  rw [List.mem_map]
  constructor
  · rintro ⟨⟨a, d⟩, hp, heq⟩
    have h1 : d.id = r := congrArg Prod.fst heq
    have h2 : a = v := congrArg Prod.snd heq
    subst h2
    exact ⟨d, List.mem_enum_iff_get?.mp hp, h1⟩
  · rintro ⟨d, hd, hid⟩
    refine ⟨(v, d), List.mem_enum_iff_get?.mpr hd, ?_⟩
    rw [hid]

theorem olookup_eq_some_iff_mem (m : List (Nat × Nat))
    (hm : (m.map Prod.fst).Nodup) (r v : Nat) :
    olookup m r = some v ↔ (r, v) ∈ m := by
  induction m with
  | nil => simp [olookup]
  | cons p rest ih =>
    obtain ⟨a, w⟩ := p
    simp only [List.map_cons, List.nodup_cons] at hm
    obtain ⟨hna, hnd⟩ := hm
    by_cases h : r = a
    · subst h
      rw [show olookup ((r, w) :: rest) r = some w from by simp [olookup]]
      constructor
      · intro hv
        injection hv with hv
        subst hv
        exact List.mem_cons_self _ _
      · intro hv
        rcases List.mem_cons.mp hv with h1 | h1
        · have h2 : w = v := congrArg Prod.snd h1.symm
          rw [h2]
        · exact absurd (List.mem_map.mpr ⟨(r, v), h1, rfl⟩) hna
    · simp only [olookup, if_neg h]
      rw [ih hnd]
      constructor
      · exact fun hv => List.mem_cons_of_mem _ hv
      · intro hv
        rcases List.mem_cons.mp hv with h1 | h1
        · exact absurd (congrArg Prod.fst h1) h
        · exact h1

theorem olookup_baseMapping_iff (docs : List Document)
    (hids : (docs.map Document.id).Nodup) (r v : Nat) :
    olookup (baseMapping docs) r = some v ↔
      ∃ d, docs.get? v = some d ∧ d.id = r := by
  rw [olookup_eq_some_iff_mem _ (by rw [keys_baseMapping]; exact hids),
      mem_baseMapping_iff]

theorem count_resolveRefs (docs : List Document)
    (hids : (docs.map Document.id).Nodup) (d : Document) (i : Nat)
    (hi : i < docs.length) :
    (resolveRefs (baseMapping docs) d).count i
      = (d.references.getD []).count (docs.get ⟨i, hi⟩).id := by
  unfold resolveRefs
  rw [List.count_filterMap]
  have hgi : docs.get? i = some (docs.get ⟨i, hi⟩) := List.get?_eq_get hi
  have hpt : ∀ r ∈ d.references.getD [],
      ((olookup (baseMapping docs) r == some i) = true
        ↔ (r == (docs.get ⟨i, hi⟩).id) = true) := by
    intro r _
    simp only [beq_iff_eq]
    rw [olookup_baseMapping_iff docs hids]
    constructor
    · rintro ⟨d2, hd2, hid⟩
      rw [hgi] at hd2
      injection hd2 with hd2
      rw [← hid, hd2]
    · intro h
      exact ⟨docs.get ⟨i, hi⟩, hgi, h.symm⟩
  rw [List.countP_congr hpt]
  rfl

theorem count_map_pair_left {α β : Type} [DecidableEq α] [DecidableEq β]
    (x a : α) (b : β) (l : List β) :
    (l.map (fun c => (x, c))).count (a, b) = if x = a then l.count b else 0 := by
  induction l with
  | nil => simp
  | cons c l ih =>
    rw [List.map_cons, List.count_cons, ih, List.count_cons]
    by_cases h : x = a
    · subst h
      by_cases hc : c = b
      · subst hc
        simp
      · have h1 : ¬ ((x, c) == (x, b)) = true := by simp [hc]
        have h2 : ¬ (c == b) = true := by simp [hc]
        simp [h1, h2]
    · have h1 : ¬ ((x, c) == (a, b)) = true := by simp [h]
      simp [h, h1]

theorem count_product {α β : Type} [DecidableEq α] [DecidableEq β]
    (l1 : List α) (l2 : List β) (a : α) (b : β) :
    (List.product l1 l2).count (a, b) = l1.count a * l2.count b := by
  induction l1 with
  | nil => simp [List.product]
  | cons x l1 ih =>
    have hprod : List.product (x :: l1) l2
        = l2.map (fun c => (x, c)) ++ List.product l1 l2 :=
      List.product_cons x l1 l2
    rw [hprod, List.count_append, ih, count_map_pair_left, List.count_cons]
    by_cases h : x = a
    · have hx : (x == a) = true := by simp [h]
      simp only [if_pos h, hx, if_true]
      ring
    · have hx : ¬ (x == a) = true := by simp [h]
      simp only [if_neg h, if_neg hx]
      simp

theorem count_cocitPairs (refs : List Nat) (a b : Nat) :
    (cocitPairs refs).count (a, b)
      = if a < b then refs.count a * refs.count b else 0 := by
  unfold cocitPairs
  by_cases h : a < b
  · rw [if_pos h, ← count_product refs refs a b]
    apply List.count_filter
    simp [h]
  · rw [if_neg h]
    apply List.count_eq_zero_of_not_mem
    intro hmem
    rw [List.mem_filter] at hmem
    exact h (by simpa using hmem.2)

theorem alookup_cocitStrengthMap (docs : List Document) (q : Nat × Nat) :
    alookup (cocitStrengthMap docs) q
      = (docs.flatMap
          (fun d => cocitPairs (resolveRefs (baseMapping docs) d))).count q := by
  unfold cocitStrengthMap
  rw [alookup_foldl_bumpList, countP_eq_count]
  simp [alookup]

theorem sum_map_ite_eq_length_filter {α : Type} (l : List α) (p : α → Bool) :
    (l.map (fun d => if p d then 1 else 0)).sum = (l.filter p).length := by
  induction l with
  | nil => rfl
  | cons x l ih =>
    by_cases h : p x = true
    · simp only [List.map_cons, List.sum_cons, List.filter_cons, if_pos h,
        List.length_cons, ih]
      omega
    · simp only [List.map_cons, List.sum_cons, List.filter_cons, if_neg h, ih]
      omega

/-! ## Claim C2: co-citation strengths -/

/-- C2 (amended): for a document set with pairwise-distinct document ids in
which no document's reference list repeats an id, the co-citation strength
aggregated by `build_cocitation_network` for the unordered pair `(i, j)`
(keyed as `(min, max)`, here stated for `i < j`) equals the number of
documents whose reference list contains both documents' ids; and — for every
document set and every `max_edges`, with no hypotheses at all — no edge of
the returned graph is ever a self-loop.  (Without the no-duplicate hypothesis
the code counts occurrence pairs, not documents; see the counterexample.) -/
theorem cocitation_strength_spec (docs : List Document) (i j : Nat) :
    (∀ (_ : (docs.map Document.id).Nodup)
        (_ : ∀ d ∈ docs, (d.references.getD []).Nodup)
        (hi : i < docs.length) (hj : j < docs.length) (_ : i < j),
      alookup (cocitStrengthMap docs) (i, j)
        = specCocitationCount docs (docs.get ⟨i, hi⟩).id (docs.get ⟨j, hj⟩).id) ∧
    (∀ maxE, ∀ e ∈ (buildCocitationNetwork docs maxE).edges, e.1.1 ≠ e.1.2) := by
  constructor
  · intro hids hrefs hi hj hij
    rw [alookup_cocitStrengthMap, List.count_flatMap]
    unfold specCocitationCount
    have hpt : ∀ d ∈ docs,
        (List.count (i, j) ∘ fun d => cocitPairs (resolveRefs (baseMapping docs) d)) d
          = (fun d => if (decide ((docs.get ⟨i, hi⟩).id ∈ d.references.getD [])
              && decide ((docs.get ⟨j, hj⟩).id ∈ d.references.getD [])) then 1 else 0) d := by
      intro d hd
      show (cocitPairs (resolveRefs (baseMapping docs) d)).count (i, j) = _
      rw [count_cocitPairs, if_pos hij, count_resolveRefs docs hids d i hi,
          count_resolveRefs docs hids d j hj]
      simp only [List.get_eq_getElem]
      have hnd := hrefs d hd
      by_cases h1 : docs[i].id ∈ d.references.getD []
      · by_cases h2 : docs[j].id ∈ d.references.getD []
        · rw [List.count_eq_one_of_mem hnd h1, List.count_eq_one_of_mem hnd h2]
          simp [h1, h2]
        · rw [List.count_eq_zero_of_not_mem h2]
          simp [h2]
      · rw [List.count_eq_zero_of_not_mem h1]
        simp [h1]
    rw [List.map_congr_left hpt]
    exact sum_map_ite_eq_length_filter docs _
  · intro maxE e he
    have he2 : e ∈ pruneEdges (cocitEffectiveMaxEdges docs maxE) (cocitStrengthMap docs) := he
    have he3 : e ∈ cocitStrengthMap docs := pruneEdges_subset _ _ he2
    have hkey : e.1 ∈ (cocitStrengthMap docs).map Prod.fst :=
      List.mem_map.mpr ⟨e, he3, rfl⟩
    unfold cocitStrengthMap at hkey
    rcases mem_keys_foldl_bumpList _ _ _ _ hkey with h0 | ⟨d, _, hkd⟩
    · simp at h0
    · unfold cocitPairs at hkd
      rw [List.mem_filter] at hkd
      have hlt : e.1.1 < e.1.2 := by simpa using hkd.2
      omega

/-- C2 counterexample: document `12` cites document `10` twice and document
`11` once; the aggregated strength for the pair `(0, 1)` is `2` (one per
occurrence pair), while only one document cites both ids — the claim's
equality fails as stated on duplicate reference lists. -/
theorem cocitation_duplicateRef_overcounts :
    alookup (cocitStrengthMap
        [⟨10, "a", none, none⟩, ⟨11, "b", none, none⟩,
         ⟨12, "c", some [10, 10, 11], none⟩]) (0, 1)
      ≠ specCocitationCount
        [⟨10, "a", none, none⟩, ⟨11, "b", none, none⟩,
         ⟨12, "c", some [10, 10, 11], none⟩] 10 11 := by
  decide

/-- Witness for the amended C2: one document citing both others exactly once. -/
theorem cocitation_strength_spec_witness :
    alookup (cocitStrengthMap
        [⟨10, "a", none, none⟩, ⟨11, "b", none, none⟩,
         ⟨12, "c", some [10, 11], none⟩]) (0, 1)
      = specCocitationCount
        [⟨10, "a", none, none⟩, ⟨11, "b", none, none⟩,
         ⟨12, "c", some [10, 11], none⟩] 10 11 := by
  exact (cocitation_strength_spec
      [⟨10, "a", none, none⟩, ⟨11, "b", none, none⟩, ⟨12, "c", some [10, 11], none⟩]
      0 1).1 (by decide) (by decide) (by decide) (by decide) (by decide)

/-! ## Co-author infrastructure -/

set_option maxHeartbeats 1600000 in
theorem count_docPairsAux (l : List String) : ∀ (pre : List String) (a b : String),
    a ≠ b → (pre ++ l).Nodup →
    (docPairsAux pre l).count (a, b) + (docPairsAux pre l).count (b, a)
      = if (a ∈ l ∧ b ∈ pre) ∨ (b ∈ l ∧ a ∈ pre) ∨ (a ∈ l ∧ b ∈ l)
        then 1 else 0 := by
  induction l with
  | nil =>
    intro pre a b hab hnd
    simp [docPairsAux]
  | cons x xs ih =>
    intro pre a b hab hnd
    have hstep : docPairsAux pre (x :: xs)
        = pre.map (fun r => (x, r)) ++ docPairsAux (pre ++ [x]) xs := rfl
    have hnd2 : ((pre ++ [x]) ++ xs).Nodup := by
      rw [List.append_assoc]
      simpa using hnd
    rcases List.nodup_append.mp hnd with ⟨hpre, hxxs, hdisj⟩
    have hxn : x ∉ xs := (List.nodup_cons.mp hxxs).1
    have hxpre : x ∉ pre := fun hin => hdisj hin (List.mem_cons_self _ _)
    have hprexs : ∀ y, y ∈ pre → y ∉ xs :=
      fun y hy hyx => hdisj hy (List.mem_cons_of_mem _ hyx)
    have hcount_pre : ∀ c : String, pre.count c = if c ∈ pre then 1 else 0 := by
      intro c
      by_cases hc : c ∈ pre
      · rw [List.count_eq_one_of_mem hpre hc, if_pos hc]
      · rw [List.count_eq_zero_of_not_mem hc, if_neg hc]
    have hih := ih (pre ++ [x]) a b hab hnd2
    have hapx := hprexs a
    have hbpx := hprexs b
    rw [hstep]
    simp only [List.count_append]
    rw [count_map_pair_left, count_map_pair_left, hcount_pre, hcount_pre]
    simp only [List.mem_append, List.mem_singleton, List.mem_cons] at hih ⊢
    generalize (docPairsAux (pre ++ [x]) xs).count (a, b) = c1 at hih ⊢
    generalize (docPairsAux (pre ++ [x]) xs).count (b, a) = c2 at hih ⊢
    by_cases hxa : x = a <;> by_cases hxb : x = b <;>
      by_cases hapre : a ∈ pre <;> by_cases hbpre : b ∈ pre <;>
      by_cases haxs : a ∈ xs <;> by_cases hbxs : b ∈ xs <;>
      simp_all [eq_comm]

theorem count_docPairs (names : List String) (a b : String) (hab : a ≠ b)
    (hnd : names.Nodup) :
    (docPairs names).count (a, b) + (docPairs names).count (b, a)
      = if a ∈ names ∧ b ∈ names then 1 else 0 := by
  have h := count_docPairsAux names [] a b hab (by simpa using hnd)
  simpa [docPairs] using h

theorem count_coauthorEdgeKeys (ret names : List String) (hret : ret.Nodup)
    (a b : String) (ha : a ∈ ret) (hb : b ∈ ret) :
    (coauthorEdgeKeys ret names).count (ret.indexOf a, ret.indexOf b)
      = (docPairs names).count (a, b) := by
  unfold coauthorEdgeKeys
  rw [List.count_filterMap]
  have hpt : ∀ p ∈ docPairs names,
      (((if p.1 ∈ ret ∧ p.2 ∈ ret
          then some (ret.indexOf p.1, ret.indexOf p.2) else none)
        == some (ret.indexOf a, ret.indexOf b)) = true
        ↔ (p == (a, b)) = true) := by
    intro p _
    simp only [beq_iff_eq]
    constructor
    · intro h
      by_cases hg : p.1 ∈ ret ∧ p.2 ∈ ret
      · rw [if_pos hg] at h
        injection h with h
        have h1 : ret.indexOf p.1 = ret.indexOf a := congrArg Prod.fst h
        have h2 : ret.indexOf p.2 = ret.indexOf b := congrArg Prod.snd h
        exact Prod.ext ((List.indexOf_inj hg.1 ha).mp h1)
          ((List.indexOf_inj hg.2 hb).mp h2)
      · rw [if_neg hg] at h
        exact absurd h (by simp)
    · intro h
      subst h
      rw [if_pos ⟨ha, hb⟩]
  rw [List.countP_congr hpt]
  rfl

theorem alookup_coauthorEdgeMap (docs : List Document) (maxA : Option Nat)
    (q : Nat × Nat) :
    alookup (coauthorEdgeMap docs maxA) q
      = (docs.flatMap
          (fun d => coauthorEdgeKeys (retainedAuthors docs maxA) (authorNames d))).count q := by
  unfold coauthorEdgeMap
  rw [alookup_foldl_bumpList, countP_eq_count]
  simp [alookup]

theorem nodup_allAuthors (docs : List Document) : (allAuthors docs).Nodup := by
  unfold allAuthors authorCountMap
  exact nodup_keys_foldl_bumpList _ _ _ (by simp)

theorem retainedAuthors_none (docs : List Document) :
    retainedAuthors docs none = allAuthors docs := rfl

theorem retainedAuthors_some (docs : List Document) (k : Nat) :
    retainedAuthors docs (some k)
      = if k < (allAuthors docs).length
        then ((allAuthors docs).insertionSort (aDesc (authorCountMap docs))).take k
        else allAuthors docs := rfl

theorem nodup_retainedAuthors (docs : List Document) (maxA : Option Nat) :
    (retainedAuthors docs maxA).Nodup := by
  cases maxA with
  | none => exact nodup_allAuthors docs
  | some k =>
    rw [retainedAuthors_some]
    by_cases h : k < (allAuthors docs).length
    · rw [if_pos h]
      apply List.Nodup.sublist (List.take_sublist _ _)
      exact ((List.perm_insertionSort _ _).nodup_iff).mpr (nodup_allAuthors docs)
    · rw [if_neg h]
      exact nodup_allAuthors docs

theorem retained_subset_allAuthors (docs : List Document) (maxA : Option Nat) :
    retainedAuthors docs maxA ⊆ allAuthors docs := by
  cases maxA with
  | none => exact fun x h => h
  | some k =>
    rw [retainedAuthors_some]
    by_cases h : k < (allAuthors docs).length
    · rw [if_pos h]
      intro x hx
      exact ((List.perm_insertionSort _ _).mem_iff).mp (List.take_subset _ _ hx)
    · rw [if_neg h]
      exact fun x h => h

theorem mem_authorNames_iff (d : Document) (n : String) :
    n ∈ authorNames d ↔ some n ∈ d.authors.getD [] ∧ n ≠ "" := by
  unfold authorNames
  rw [List.mem_filterMap]
  constructor
  · rintro ⟨a, hmem, ha⟩
    cases a with
    | none => simp at ha
    | some s =>
      rw [Option.some_bind] at ha
      by_cases hs : s = ""
      · rw [if_pos hs] at ha
        simp at ha
      · rw [if_neg hs] at ha
        injection ha with ha
        subst ha
        exact ⟨hmem, hs⟩
  · rintro ⟨hmem, hne⟩
    refine ⟨some n, hmem, ?_⟩
    rw [Option.some_bind, if_neg hne]

theorem mem_allAuthors (docs : List Document) (n : String)
    (h : n ∈ allAuthors docs) : n ≠ "" ∧ ∃ d ∈ docs, n ∈ authorNames d := by
  unfold allAuthors authorCountMap at h
  rcases mem_keys_foldl_bumpList _ _ _ _ h with h0 | ⟨d, hd, hn⟩
  · simp at h0
  · exact ⟨((mem_authorNames_iff d n).mp hn).2, d, hd, hn⟩

theorem addNode_mem (ns : List Nat) (v : Nat) (h : v ∈ ns) : addNode ns v = ns := by
  unfold addNode
  rw [if_pos h]

theorem addEdgeNodes_no_new (nodes : List Nat) (keys : List (Nat × Nat))
    (h : ∀ k ∈ keys, k.1 ∈ nodes ∧ k.2 ∈ nodes) :
    addEdgeNodes nodes keys = nodes := by
  induction keys with
  | nil => rfl
  | cons k ks ih =>
    have hk := h k (List.mem_cons_self _ _)
    show List.foldl _ (addNode (addNode nodes k.1) k.2) ks = nodes
    rw [addNode_mem _ _ hk.1, addNode_mem _ _ hk.2]
    exact ih (fun q hq => h q (List.mem_cons_of_mem _ hq))

theorem coauthorEdgeKeys_lt (ret names : List String) (k : Nat × Nat)
    (h : k ∈ coauthorEdgeKeys ret names) :
    k.1 < ret.length ∧ k.2 < ret.length := by
  unfold coauthorEdgeKeys at h
  rw [List.mem_filterMap] at h
  obtain ⟨p, _, hp⟩ := h
  by_cases hg : p.1 ∈ ret ∧ p.2 ∈ ret
  · rw [if_pos hg] at hp
    injection hp with hp
    rw [← hp]
    exact ⟨List.indexOf_lt_length.mpr hg.1, List.indexOf_lt_length.mpr hg.2⟩
  · rw [if_neg hg] at hp
    exact absurd hp (by simp)

theorem coauthor_sum_helper (ret : List String) (hret : ret.Nodup)
    (a b : String) (ha : a ∈ ret) (hb : b ∈ ret) (hab : a ≠ b)
    (l : List Document) (hl : ∀ d ∈ l, (authorNames d).Nodup) :
    (l.map (List.count (ret.indexOf a, ret.indexOf b)
        ∘ fun d => coauthorEdgeKeys ret (authorNames d))).sum
      + (l.map (List.count (ret.indexOf b, ret.indexOf a)
        ∘ fun d => coauthorEdgeKeys ret (authorNames d))).sum
      = specCoauthorCount l a b := by
  induction l with
  | nil => rfl
  | cons d l ih =>
    have ih2 := ih (fun d2 hd2 => hl d2 (List.mem_cons_of_mem _ hd2))
    unfold specCoauthorCount at ih2 ⊢
    simp only [List.map_cons, List.sum_cons, Function.comp, List.filter_cons]
    rw [count_coauthorEdgeKeys ret (authorNames d) hret a b ha hb,
        count_coauthorEdgeKeys ret (authorNames d) hret b a hb ha]
    have h3 := count_docPairs (authorNames d) a b hab (hl d (List.mem_cons_self _ _))
    by_cases hm : a ∈ authorNames d ∧ b ∈ authorNames d
    · rw [if_pos hm] at h3
      have hcond : (decide (a ∈ authorNames d) && decide (b ∈ authorNames d)) = true := by
        simp [hm.1, hm.2]
      simp only [hcond, if_true, List.length_cons]
      omega
    · rw [if_neg hm] at h3
      have hcond : (decide (a ∈ authorNames d) && decide (b ∈ authorNames d)) = false := by
        rcases not_and_or.mp hm with h | h <;> simp [h]
      simp only [hcond, Bool.false_eq_true, if_false]
      omega

/-! ## Claim C6: co-author weights -/

/-- C6 (amended): for retained authors `a` and `b` of a document set in which
no document's filtered author list repeats a name, the total weight over the
(up to two) directed edges between `a` and `b` equals the number of documents
on which both appear; every retained author name is nonempty and occurs in
some document (missing/empty names are excluded entirely); and the graph's
node set is exactly the indices of the retained authors, so authors excluded
by the `max_authors` cutoff never produce nodes (the `in mapping` guard keeps
`add_edge` from creating any).  The last two parts hold for every document
set and every `max_authors`, with no hypotheses at all.  (As stated, the
original claim fails: the per-document `(later, earlier)` keying can split
the weight across the two directions — see the counterexample.) -/
theorem coauthor_weight_spec (docs : List Document) (maxA : Option Nat)
    (a b : String) :
    ((∀ d ∈ docs, (authorNames d).Nodup) → a ∈ retainedAuthors docs maxA →
      b ∈ retainedAuthors docs maxA → a ≠ b →
      alookup (coauthorEdgeMap docs maxA)
          (authorIdx docs maxA a, authorIdx docs maxA b)
        + alookup (coauthorEdgeMap docs maxA)
          (authorIdx docs maxA b, authorIdx docs maxA a)
        = specCoauthorCount docs a b) ∧
    (∀ n ∈ retainedAuthors docs maxA, n ≠ "" ∧ ∃ d ∈ docs, n ∈ authorNames d) ∧
    (buildCoauthorNetwork docs maxA).nodes
      = List.range (retainedAuthors docs maxA).length := by
  refine ⟨?_, ?_, ?_⟩
  · intro hnd ha hb hab
    rw [alookup_coauthorEdgeMap, alookup_coauthorEdgeMap,
        List.count_flatMap, List.count_flatMap]
    exact coauthor_sum_helper (retainedAuthors docs maxA)
      (nodup_retainedAuthors docs maxA) a b ha hb hab docs hnd
  · intro n hn
    exact mem_allAuthors docs n (retained_subset_allAuthors docs maxA hn)
  · show addEdgeNodes (List.range (retainedAuthors docs maxA).length)
        ((coauthorEdgeMap docs maxA).map Prod.fst) = _
    apply addEdgeNodes_no_new
    intro k hk
    rcases mem_keys_foldl_bumpList _ _ _ _ hk with h0 | ⟨d, _, hkd⟩
    · simp at h0
    · have := coauthorEdgeKeys_lt _ _ _ hkd
      exact ⟨List.mem_range.mpr this.1, List.mem_range.mpr this.2⟩

/-- C6 counterexample: two documents, both authored by `A` and `B` but in
opposite list orders.  The spec-level count of documents with both authors is
`2`, yet the returned graph holds two directed edges, `(1, 0)` and `(0, 1)`,
each of weight `1`: no edge between the two authors carries the claimed
weight. -/
theorem coauthor_weight_counterexample :
    retainedAuthors
        [⟨0, "d0", none, some [some "A", some "B"]⟩,
         ⟨1, "d1", none, some [some "B", some "A"]⟩] none = ["A", "B"] ∧
    alookup (coauthorEdgeMap
        [⟨0, "d0", none, some [some "A", some "B"]⟩,
         ⟨1, "d1", none, some [some "B", some "A"]⟩] none) (1, 0)
      ≠ specCoauthorCount
        [⟨0, "d0", none, some [some "A", some "B"]⟩,
         ⟨1, "d1", none, some [some "B", some "A"]⟩] "A" "B" ∧
    alookup (coauthorEdgeMap
        [⟨0, "d0", none, some [some "A", some "B"]⟩,
         ⟨1, "d1", none, some [some "B", some "A"]⟩] none) (0, 1)
      ≠ specCoauthorCount
        [⟨0, "d0", none, some [some "A", some "B"]⟩,
         ⟨1, "d1", none, some [some "B", some "A"]⟩] "A" "B" := by
  refine ⟨by decide, by decide, by decide⟩

/-- Witness for the amended C6: a single document authored by `A` and `B`. -/
theorem coauthor_weight_spec_witness :
    alookup (coauthorEdgeMap [⟨0, "d", none, some [some "A", some "B"]⟩] none)
        (authorIdx [⟨0, "d", none, some [some "A", some "B"]⟩] none "A",
         authorIdx [⟨0, "d", none, some [some "A", some "B"]⟩] none "B")
      + alookup (coauthorEdgeMap [⟨0, "d", none, some [some "A", some "B"]⟩] none)
        (authorIdx [⟨0, "d", none, some [some "A", some "B"]⟩] none "B",
         authorIdx [⟨0, "d", none, some [some "A", some "B"]⟩] none "A")
      = specCoauthorCount [⟨0, "d", none, some [some "A", some "B"]⟩] "A" "B" :=
  (coauthor_weight_spec [⟨0, "d", none, some [some "A", some "B"]⟩]
    none "A" "B").1 (by decide) (by decide) (by decide) (by decide)

/-! ## Claim C8: co-author graph directedness and edge keying -/

/-- C8 (amended): the graph object returned by `build_coauthor_network` is a
directed graph, and an edge keyed `(u, v)` exists exactly when some document's
filtered author list contains a retained author mapped to `u` at a later
position and a retained author mapped to `v` at an earlier position.  The
original claim's consequence — that an unordered author pair appears in at
most one direction — fails, because different documents may list the same two
authors in opposite orders; see the counterexample. -/
theorem coauthor_directed_pairKeys (docs : List Document) (maxA : Option Nat)
    (u v : Nat) :
    (buildCoauthorNetwork docs maxA).directed = true ∧
    (0 < alookup (coauthorEdgeMap docs maxA) (u, v) ↔
      ∃ d ∈ docs, ∃ p ∈ docPairs (authorNames d),
        p.1 ∈ retainedAuthors docs maxA ∧ p.2 ∈ retainedAuthors docs maxA ∧
        (retainedAuthors docs maxA).indexOf p.1 = u ∧
        (retainedAuthors docs maxA).indexOf p.2 = v) := by
  refine ⟨rfl, ?_⟩
  rw [alookup_coauthorEdgeMap, List.count_pos_iff, List.mem_flatMap]
  constructor
  · rintro ⟨d, hd, hk⟩
    unfold coauthorEdgeKeys at hk
    rw [List.mem_filterMap] at hk
    obtain ⟨p, hp, hpe⟩ := hk
    by_cases hg : p.1 ∈ retainedAuthors docs maxA ∧ p.2 ∈ retainedAuthors docs maxA
    · rw [if_pos hg] at hpe
      injection hpe with hpe
      exact ⟨d, hd, p, hp, hg.1, hg.2, congrArg Prod.fst hpe, congrArg Prod.snd hpe⟩
    · rw [if_neg hg] at hpe
      exact absurd hpe (by simp)
  · rintro ⟨d, hd, p, hp, h1, h2, h3, h4⟩
    refine ⟨d, hd, ?_⟩
    unfold coauthorEdgeKeys
    rw [List.mem_filterMap]
    refine ⟨p, hp, ?_⟩
    rw [if_pos ⟨h1, h2⟩, h3, h4]

/-- C8 counterexample: with author orders `[A, B]` and `[B, A]` in two
documents, both directed edges `(0, 1)` and `(1, 0)` are present — the same
unordered author pair appears as an edge in both directions. -/
theorem coauthor_bothDirections_counterexample :
    0 < alookup (coauthorEdgeMap
        [⟨0, "d0", none, some [some "A", some "B"]⟩,
         ⟨1, "d1", none, some [some "B", some "A"]⟩] none) (0, 1) ∧
    0 < alookup (coauthorEdgeMap
        [⟨0, "d0", none, some [some "A", some "B"]⟩,
         ⟨1, "d1", none, some [some "B", some "A"]⟩] none) (1, 0) := by
  refine ⟨by decide, by decide⟩
